import Mathlib

/-!
Verification of the reference decompressor in src/ReferenceDecoder/Decompressor.c
(Chris Lomont tiny decompression library).

Shallow embedding conventions:
* Bytes of the compressed source are a List Nat (each entry a byte value).
* Machine uint32 arithmetic is Nat with an explicit mod 2^32 wherever the C
  computation can wrap (value accumulation, range-coder state, subtraction).
* Bit positions, byte indices and other cursors that cannot wrap in any
  in-bounds execution are plain Nat.
* C while-loops whose termination depends on stream contents take an explicit
  fuel argument and return Option (none when the fuel runs out); loops whose
  trip count is bounded by the data length get that bound as built-in fuel.
-/

namespace CompressionTools

/-- 2^32, the modulus of uint32 arithmetic. -/
def U32 : Nat := 4294967296

/-- uint32 subtraction a - b (wraps modulo 2^32, as in C). -/
def u32sub (a b : Nat) : Nat := (a + U32 - b % U32) % U32

/-- CL_COMPRESSOR_END_TOKEN = 0xFFFFFFFF from Decompressor.h. -/
def CL_COMPRESSOR_END_TOKEN : Nat := 4294967295

/-- Bitstream_t: a byte array and a bit cursor (MSB-first within each byte). -/
structure Bitstream where
  data : List Nat
  position : Nat
deriving DecidableEq

/-- Bit number (7 - (pos mod 8)) of byte data[pos / 8]: the bit the cursor at
pos reads, MSB-first.  Out-of-range bytes read as 0. -/
def bitAt (data : List Nat) (pos : Nat) : Nat :=
  (data.getD (pos / 8) 0 >>> (7 - pos % 8)) &&& 1

/-- Loop body of ReadBitstream: bitLength iterations of
value = (value shifted left) OR bit; since the shifted value is even and the
bit is 0 or 1, the OR is written as addition. -/
def readBitstreamGo : Nat → Bitstream → Nat → Nat × Bitstream
  | 0, bs, value => (value, bs)
  | n + 1, bs, value =>
      readBitstreamGo n ⟨bs.data, bs.position + 1⟩
        ((2 * value) % U32 + bitAt bs.data bs.position)

/-- ReadBitstream: read bitLength bits from the cursor, MSB first. -/
def ReadBitstream (bs : Bitstream) (bitLength : Nat) : Nat × Bitstream :=
  readBitstreamGo bitLength bs 0

/-- ReadFromBitstreamPosition: save the internal cursor, read bitLength bits
starting at position, report the updated position, restore the cursor.
Returns (value, updated position, resulting bitstream). -/
def ReadFromBitstreamPosition (bs : Bitstream) (position : Nat) (bitLength : Nat) :
    Nat × Nat × Bitstream :=
  let temp := bs.position
  let r := ReadBitstream ⟨bs.data, position⟩ bitLength
  (r.1, r.2.position, ⟨r.2.data, temp⟩)

/-! DecodeUniversalLomont1.  The C do-while loop continues only on a nonzero
decision bit; a nonzero bit can only come from inside the data array (reads
past the end yield zero), and every iteration advances the cursor by at least
one bit, so at most 8 * data.length iterations can continue.  The built-in
fuel 8 * data.length + 1 therefore always suffices, making the function total
exactly like the C loop. -/

/-- Loop of DecodeUniversalLomont1: read decision bit b, read chunkSize bits,
value += chunk << shift (uint32), shift += chunkSize, shrink-or-grow
chunkSize clamping at 1, exit when b = 0. -/
def DecodeUniversalLomont1Go : Nat → Bitstream → Int → Int → Nat → Int → Nat × Bitstream
  | 0, bs, _, _, value, _ => (value, bs)
  | fuel + 1, bs, chunkSize, deltaChunk, value, shift =>
      let p := ReadBitstream bs 1
      let q := ReadBitstream p.2 chunkSize.toNat
      let value1 := (value + (q.1 * 2 ^ shift.toNat) % U32) % U32
      let shift1 := shift + chunkSize
      let chunkSize1 :=
        if deltaChunk ≠ 0 then
          (if chunkSize + deltaChunk ≤ 0 then 1 else chunkSize + deltaChunk)
        else chunkSize
      if p.1 ≠ 0 then DecodeUniversalLomont1Go fuel q.2 chunkSize1 deltaChunk value1 shift1
      else (value1, q.2)

/-- DecodeUniversalLomont1: decode one Lomont method 1 universal coded value. -/
def DecodeUniversalLomont1 (bs : Bitstream) (chunkSize deltaChunk : Int) : Nat × Bitstream :=
  DecodeUniversalLomont1Go (8 * bs.data.length + 1) bs chunkSize deltaChunk 0 0

/-- The decoding loop exactly as the specification words it, with the chunk
size update written as max 1 (chunkSize + deltaChunk). -/
def DecodeUniversalLomont1SpecGo : Nat → Bitstream → Int → Int → Nat → Int → Nat × Bitstream
  | 0, bs, _, _, value, _ => (value, bs)
  | fuel + 1, bs, chunkSize, deltaChunk, value, shift =>
      let p := ReadBitstream bs 1
      let q := ReadBitstream p.2 chunkSize.toNat
      let value1 := (value + (q.1 * 2 ^ shift.toNat) % U32) % U32
      let shift1 := shift + chunkSize
      let chunkSize1 :=
        if deltaChunk ≠ 0 then max 1 (chunkSize + deltaChunk) else chunkSize
      if p.1 ≠ 0 then DecodeUniversalLomont1SpecGo fuel q.2 chunkSize1 deltaChunk value1 shift1
      else (value1, q.2)

/-- Specification-side universal decoder. -/
def DecodeUniversalLomont1Spec (bs : Bitstream) (chunkSize deltaChunk : Int) : Nat × Bitstream :=
  DecodeUniversalLomont1SpecGo (8 * bs.data.length + 1) bs chunkSize deltaChunk 0 0

/-- GetDecompressedSize: first Lomont1(6,0) field of any stream. -/
def GetDecompressedSize (source : List Nat) : Nat :=
  (DecodeUniversalLomont1 ⟨source, 0⟩ 6 0).1

/-- OnesCount: population count by the parallel-sum bit trick (uint32). -/
def OnesCount (value : Nat) : Nat :=
  let v1 := u32sub value ((value >>> 1) &&& 1431655765)
  let v2 := (((v1 >>> 2) &&& 858993459) + (v1 &&& 858993459)) % U32
  let v3 := (((v2 >>> 4) + v2) % U32) &&& 252645135
  let v4 := (v3 + (v3 >>> 8)) % U32
  let v5 := (v4 + (v4 >>> 16)) % U32
  v5 &&& 63

/-- FloorLog2, with 0 mapped to 0. -/
def FloorLog2 (value : Nat) : Nat :=
  let v1 := value ||| (value >>> 1)
  let v2 := v1 ||| (v1 >>> 2)
  let v3 := v2 ||| (v2 >>> 4)
  let v4 := v3 ||| (v3 >>> 8)
  let v5 := v4 ||| (v4 >>> 16)
  OnesCount (v5 >>> 1)

/-- BitsRequired: bits required to store value; value 0 gives 1. -/
def BitsRequired (value : Nat) : Nat := 1 + FloorLog2 value

/-- Shared unary loop: read bits and count the reads until a zero bit is
read (the zero bit is consumed).  This is the do-while delta loop of
LookupArithmeticLowMemoryCount; the Golomb quotient loop consumes the same
bits, its count being one less.  A continuing read needs a one bit inside
the data, so the built-in fuel 8 * data.length + 1 always suffices. -/
def ReadOnesRunGo : Nat → Bitstream → Nat → Nat × Bitstream
  | 0, bs, delta => (delta, bs)
  | fuel + 1, bs, delta =>
      let p := ReadBitstream bs 1
      if p.1 ≠ 0 then ReadOnesRunGo fuel p.2 (delta + 1) else (delta + 1, p.2)

/-- Number of bits read up to and including the first zero bit. -/
def ReadOnesRun (bs : Bitstream) : Nat × Bitstream :=
  ReadOnesRunGo (8 * bs.data.length + 1) bs 0

/-! Huffman decoder. -/

/-- HuffmanState_t. -/
structure HuffmanState where
  bitstream : Bitstream
  tablePosition : Nat
  byteLength : Nat
  bitsPerSymbol : Nat
  minCodewordLength : Nat
  maxCodewordLength : Nat
  bitsPerCodelengthCount : Nat
deriving DecidableEq

/-- Inner loop of ParseHuffmanTable: skip count symbols of bitsPerSymbol bits. -/
def ParseHuffmanSymbols : Nat → Bitstream → Nat → Bitstream
  | 0, bs, _ => bs
  | n + 1, bs, bps => ParseHuffmanSymbols n (ReadBitstream bs bps).2 bps

/-- Outer loop of ParseHuffmanTable over the codeword lengths. -/
def ParseHuffmanTableRows : Nat → Bitstream → Nat → Nat → Bitstream
  | 0, bs, _, _ => bs
  | rows + 1, bs, bpc, bps =>
      let c := ReadBitstream bs bpc
      ParseHuffmanTableRows rows (ParseHuffmanSymbols c.1 c.2 bps) bpc bps

/-- ParseHuffmanTable: record the table position, then walk the counts and
symbols for each codeword length from min to max. -/
def ParseHuffmanTable (state : HuffmanState) : HuffmanState :=
  let state1 := {state with tablePosition := state.bitstream.position}
  let rows := state1.maxCodewordLength + 1 - state1.minCodewordLength
  {state1 with bitstream :=
    ParseHuffmanTableRows rows state1.bitstream state1.bitsPerCodelengthCount state1.bitsPerSymbol}

/-- ReadHuffmanHeaderNoLength; the uint8_t stores truncate modulo 256. -/
def ReadHuffmanHeaderNoLength (state : HuffmanState) : HuffmanState :=
  let r1 := DecodeUniversalLomont1 state.bitstream 3 0
  let r2 := DecodeUniversalLomont1 r1.2 3 0
  let r3 := DecodeUniversalLomont1 r2.2 2 0
  let r4 := DecodeUniversalLomont1 r3.2 4 (-1)
  let deltaCodewordLength := 1 + r4.1
  let minCW := (1 + r3.1) % 256
  ParseHuffmanTable {state with
    bitstream := r4.2,
    bitsPerSymbol := (1 + r1.1) % 256,
    bitsPerCodelengthCount := (1 + r2.1) % 256,
    minCodewordLength := minCW,
    maxCodewordLength := (minCW + deltaCodewordLength) % 256}

/-- First loop of DecompressHuffmanSymbol: read minCodewordLength bits into
the accumulator, shifting firstCodewordOnRow along (uint32). -/
def HuffmanReadMinBits : Nat → Bitstream → Nat → Nat → Nat × Nat × Bitstream
  | 0, bs, accumulator, firstCodewordOnRow => (accumulator, firstCodewordOnRow, bs)
  | n + 1, bs, accumulator, firstCodewordOnRow =>
      let r := ReadBitstream bs 1
      HuffmanReadMinBits n r.2 ((2 * accumulator + r.1) % U32) ((firstCodewordOnRow * 2) % U32)

/-- Canonical table walk of DecompressHuffmanSymbol.  The accumulator minus
firstCodewordOnRow comparison is uint32 (wrapping) subtraction as in C. -/
def HuffmanWalk (bpc bps : Nat) : Nat → Bitstream → Nat → Nat → Nat → Option (Nat × Bitstream)
  | 0, _, _, _, _ => none
  | fuel + 1, bs, accumulator, firstCodewordOnRow, tableIndex =>
      let n := ReadFromBitstreamPosition bs tableIndex bpc
      let numberOfCodes := n.1
      let tableIndex1 := n.2.1
      let bs1 := n.2.2
      if 0 < numberOfCodes ∧ u32sub accumulator firstCodewordOnRow < numberOfCodes then
        let itemIndex := u32sub accumulator firstCodewordOnRow
        let r := ReadFromBitstreamPosition bs1 (tableIndex1 + itemIndex * bps) bps
        some (r.1, r.2.2)
      else
        let first1 := (firstCodewordOnRow + numberOfCodes) % U32
        let rb := ReadBitstream bs1 1
        HuffmanWalk bpc bps fuel rb.2 ((2 * accumulator + rb.1) % U32) ((first1 * 2) % U32)
          (tableIndex1 + numberOfCodes * bps)

/-- DecompressHuffmanSymbol.  Returns none when the walk fuel runs out (the C
loop would keep walking the table). -/
def DecompressHuffmanSymbol (fuel : Nat) (state : HuffmanState) : Option (Nat × HuffmanState) :=
  if state.byteLength = 0 then some (CL_COMPRESSOR_END_TOKEN, state)
  else
    let state1 :=
      if state.byteLength ≠ 4294967295 then {state with byteLength := state.byteLength - 1}
      else state
    let m := HuffmanReadMinBits state1.minCodewordLength state1.bitstream 0 0
    match HuffmanWalk state1.bitsPerCodelengthCount state1.bitsPerSymbol fuel m.2.2 m.1 m.2.1
        state1.tablePosition with
    | none => none
    | some r => some (r.1, {state1 with bitstream := r.2})

/-- DecompressHuffmanStart.  The C state is stack garbage before the call;
every field is assigned before use, the unset ones start at 0 here. -/
def DecompressHuffmanStart (source : List Nat) : HuffmanState :=
  let r := DecodeUniversalLomont1 ⟨source, 0⟩ 6 0
  ReadHuffmanHeaderNoLength
    { bitstream := r.2, tablePosition := 0, byteLength := r.1, bitsPerSymbol := 0,
      minCodewordLength := 0, maxCodewordLength := 0, bitsPerCodelengthCount := 0 }

/-- While loop of DecompressHuffman; the first argument of the recursion is
destLength - byteIndex, so the zero case is the byteIndex < destLength test.
The dest store is a uint8_t write, hence the mod 256. -/
def DecompressHuffmanLoop (fuel : Nat) : Nat → HuffmanState → List Nat → Nat → Option (Nat × List Nat)
  | 0, _, dest, byteIndex => some (byteIndex, dest)
  | remaining + 1, state, dest, byteIndex =>
      if state.byteLength = 0 then some (byteIndex, dest)
      else
        match DecompressHuffmanSymbol fuel state with
        | none => none
        | some (symbol, state1) =>
            if symbol = CL_COMPRESSOR_END_TOKEN then some (byteIndex, dest)
            else DecompressHuffmanLoop fuel remaining state1
              (dest.set byteIndex (symbol % 256)) (byteIndex + 1)

/-- DecompressHuffman: one-shot decode, returns (bytes decoded, dest). -/
def DecompressHuffman (fuel : Nat) (source dest : List Nat) (destLength : Nat) :
    Option (Nat × List Nat) :=
  DecompressHuffmanLoop fuel destLength (DecompressHuffmanStart source) dest 0

/-! Arithmetic decoder. -/

/-- range25Percent = 0x20000000. -/
def range25Percent : Nat := 536870912

/-- range50Percent = 0x40000000. -/
def range50Percent : Nat := 1073741824

/-- range75Percent = 0x60000000. -/
def range75Percent : Nat := 1610612736

/-- range100Percent = 0x80000000. -/
def range100Percent : Nat := 2147483648

/-- ArithmeticState_t (the unused scaling field is dropped). -/
structure ArithmeticState where
  bitstream : Bitstream
  lowValue : Nat
  highValue : Nat
  total : Nat
  symbolMin : Nat
  tableStartBitPosition : Nat
  buffer : Nat
  bitLength : Nat
  bitsRead : Nat
deriving DecidableEq

/-- ReadArithmeticBistream: increment bitsRead, then read only while the
incremented count is still below bitLength, else return 0. -/
def ReadArithmeticBistream (state : ArithmeticState) (bitCount : Nat) : Nat × ArithmeticState :=
  let state1 := {state with bitsRead := state.bitsRead + 1}
  if state1.bitsRead < state1.bitLength then
    let r := ReadBitstream state1.bitstream bitCount
    (r.1, {state1 with bitstream := r.2})
  else (0, state1)

/-- DecodeArithmeticTable: symbol min, symbol max (unused), table bit length;
record the table start and jump the cursor past the table. -/
def DecodeArithmeticTable (state : ArithmeticState) : ArithmeticState :=
  let m1 := DecodeUniversalLomont1 state.bitstream 6 0
  let m2 := DecodeUniversalLomont1 m1.2 6 0
  let m3 := DecodeUniversalLomont1 m2.2 6 0
  {state with symbolMin := m1.1,
              tableStartBitPosition := m3.2.position,
              bitstream := ⟨m3.2.data, m3.2.position + m3.1⟩}

/-- The 31-iteration buffer fill loop of ReadArithmeticHeaderNoLength. -/
def ArithmeticFillBuffer : Nat → ArithmeticState → ArithmeticState
  | 0, s => s
  | n + 1, s =>
      let r := ReadArithmeticBistream s 1
      ArithmeticFillBuffer n {r.2 with buffer := ((s.buffer <<< 1) % U32) ||| r.1}

/-- ReadArithmeticHeaderNoLength. -/
def ReadArithmeticHeaderNoLength (state : ArithmeticState) : ArithmeticState :=
  let s0 := {state with lowValue := 0, highValue := range100Percent - 1}
  let t1 := DecodeUniversalLomont1 s0.bitstream 6 0
  let t2 := DecodeUniversalLomont1 t1.2 8 (-1)
  let s1 := {s0 with bitstream := t2.2, total := t1.1, bitLength := t2.1, bitsRead := 0}
  let tempPos := s1.bitstream.position
  let s2 := DecodeArithmeticTable s1
  let s3 := {s2 with bitsRead := s2.bitstream.position - tempPos}
  ArithmeticFillBuffer 31 {s3 with buffer := 0}

/-- DecompressArithmeticStart: initialize the bitstream and parse the header;
the returned state carries total, the number of symbols. -/
def DecompressArithmeticStart (source : List Nat) : ArithmeticState :=
  ReadArithmeticHeaderNoLength
    { bitstream := ⟨source, 0⟩, lowValue := 0, highValue := 0, total := 0, symbolMin := 0,
      tableStartBitPosition := 0, buffer := 0, bitLength := 0, bitsRead := 0 }

/-- While loop of LookupArithmeticLowMemoryCount: BASC decode of successive
counts until highCount exceeds cumCount.  Carries (bitstream, current bit
width b1, lowCount, highCount, symbol, index i). -/
def LookupLoop (cumCount : Nat) :
    Nat → Bitstream → Nat → Nat → Nat → Nat → Nat → Option (Nat × Nat × Nat)
  | 0, _, _, _, _, _, _ => none
  | fuel + 1, bs, b1, lowCount, highCount, symbol, i =>
      if highCount ≤ cumCount then
        let d := ReadBitstream bs 1
        let xr : Nat × Bitstream :=
          if d.1 = 0 then ReadBitstream d.2 b1
          else
            let run := ReadOnesRun d.2
            let b2 := b1 + run.1
            let x := ReadBitstream run.2 (b2 - 1)
            (x.1 ||| ((1 <<< (b2 - 1)) % U32), x.2)
        let lowCount1 := highCount
        let highCount1 := (highCount + xr.1) % U32
        let i1 := i + 1
        let symbol1 := if xr.1 ≠ 0 then i1 else symbol
        LookupLoop cumCount fuel xr.2 (BitsRequired xr.1) lowCount1 highCount1 symbol1 i1
      else some (symbol, lowCount, highCount)

/-- LookupArithmeticLowMemoryCount.  The C function saves the cursor, reads
the BASC table at tableStartBitPosition and restores the cursor, so its net
effect on the state is none; it is modelled as a pure function returning
(symbol, lowCount, highCount). -/
def LookupArithmeticLowMemoryCount (fuel : Nat) (state : ArithmeticState) (cumCount : Nat) :
    Option (Nat × Nat × Nat) :=
  let bs0 : Bitstream := ⟨state.bitstream.data, state.tableStartBitPosition⟩
  let l := DecodeUniversalLomont1 bs0 6 0
  if l.1 = 0 then some (0, 0, 0)
  else
    let bq := DecodeUniversalLomont1 l.2 6 0
    let x0 := ReadBitstream bq.2 bq.1
    LookupLoop cumCount fuel x0.2 bq.1 0 x0.1 state.symbolMin state.symbolMin

/-- E1 scaling step: window in the lower half. -/
def E1Step (s : ArithmeticState) : ArithmeticState :=
  let r := ReadArithmeticBistream s 1
  {r.2 with lowValue := (2 * s.lowValue) % U32,
            highValue := (2 * s.highValue + 1) % U32,
            buffer := (2 * s.buffer + r.1) % U32}

/-- E2 scaling step: window in the upper half. -/
def E2Step (s : ArithmeticState) : ArithmeticState :=
  let r := ReadArithmeticBistream s 1
  {r.2 with lowValue := (2 * u32sub s.lowValue range50Percent) % U32,
            highValue := (2 * u32sub s.highValue range50Percent + 1) % U32,
            buffer := (2 * u32sub s.buffer range50Percent + r.1) % U32}

/-- E3 scaling step: window straddling the middle quartiles. -/
def E3Step (s : ArithmeticState) : ArithmeticState :=
  let r := ReadArithmeticBistream s 1
  {r.2 with lowValue := (2 * u32sub s.lowValue range25Percent) % U32,
            highValue := (2 * u32sub s.highValue range25Percent + 1) % U32,
            buffer := (2 * u32sub s.buffer range25Percent + r.1) % U32}

/-- E1/E2 while loop.  The inner branch keeps the else-if shape of the C
body: if neither side fires under the guard the body does nothing, which in
C spins forever and here burns fuel. -/
def E12Loop : Nat → ArithmeticState → ArithmeticState
  | 0, s => s
  | fuel + 1, s =>
      if s.highValue < range50Percent ∨ range50Percent ≤ s.lowValue then
        if s.highValue < range50Percent then E12Loop fuel (E1Step s)
        else if range50Percent ≤ s.lowValue then E12Loop fuel (E2Step s)
        else E12Loop fuel s
      else s

/-- E3 while loop. -/
def E3Loop : Nat → ArithmeticState → ArithmeticState
  | 0, s => s
  | fuel + 1, s =>
      if range25Percent ≤ s.lowValue ∧ s.highValue < range75Percent then
        E3Loop fuel (E3Step s)
      else s

/-- DecompressArithmeticSymbol: split the range into total steps, look up the
symbol by cumulative count, update low and high, then renormalize. -/
def DecompressArithmeticSymbol (fuel : Nat) (state : ArithmeticState) :
    Option (Nat × ArithmeticState) :=
  let step := ((u32sub state.highValue state.lowValue + 1) % U32) / state.total
  match LookupArithmeticLowMemoryCount fuel state (u32sub state.buffer state.lowValue / step) with
  | none => none
  | some (symbol, lowCount, highCount) =>
      let s1 := {state with
        highValue := u32sub ((state.lowValue + step * highCount) % U32) 1,
        lowValue := (state.lowValue + step * lowCount) % U32}
      some (symbol, E3Loop fuel (E12Loop fuel s1))

/-! LZ77 decoder. -/

/-- LZ77State_t. -/
structure LZ77State where
  bitstream : Bitstream
  byteIndex : Nat
  byteLength : Nat
  dest : List Nat
  destLength : Nat
  actualMaxToken : Nat
  actualMaxDistance : Nat
  actualMinLength : Nat
  actualBitsPerSymbol : Nat
  actualBitsPerToken : Nat
deriving DecidableEq

/-- Copy loop of DecompressLZ77Block: length times, copy
dest[(byteIndex + delta) mod destLength] to dest[byteIndex mod destLength]
and advance byteIndex. -/
def LZ77CopyLoop : Nat → List Nat → Nat → Nat → Nat → List Nat × Nat
  | 0, dest, byteIndex, _, _ => (dest, byteIndex)
  | i + 1, dest, byteIndex, delta, destLength =>
      LZ77CopyLoop i
        (dest.set (byteIndex % destLength) (dest.getD ((byteIndex + delta) % destLength) 0))
        (byteIndex + 1) delta destLength

/-- DecompressLZ77Start. -/
def DecompressLZ77Start (source : List Nat) (dest : List Nat) (destLength : Nat) : LZ77State :=
  let h1 := DecodeUniversalLomont1 ⟨source, 0⟩ 6 0
  let h2 := DecodeUniversalLomont1 h1.2 3 0
  let h3 := DecodeUniversalLomont1 h2.2 5 0
  let h4 := DecodeUniversalLomont1 h3.2 2 0
  let h5 := DecodeUniversalLomont1 h4.2 25 (-10)
  let h6 := DecodeUniversalLomont1 h5.2 14 (-7)
  { bitstream := h6.2, byteIndex := 0, byteLength := h1.1, dest := dest,
    destLength := destLength, actualMaxToken := h5.1, actualMaxDistance := h6.1,
    actualMinLength := h4.1, actualBitsPerSymbol := h2.1 + 1, actualBitsPerToken := h3.1 + 1 }

/-- DecompressLZ77Block.  The literal store is a uint8_t write (mod 256); the
delta is uint32 arithmetic destLength - distance - 1. -/
def DecompressLZ77Block (state : LZ77State) : Nat × LZ77State :=
  if state.byteLength ≤ state.byteIndex then (CL_COMPRESSOR_END_TOKEN, state)
  else
    let d := ReadBitstream state.bitstream 1
    if d.1 = 0 then
      let lit := ReadBitstream d.2 state.actualBitsPerSymbol
      (1, {state with bitstream := lit.2,
                      dest := state.dest.set (state.byteIndex % state.destLength) (lit.1 % 256),
                      byteIndex := state.byteIndex + 1})
    else
      let t := ReadBitstream d.2 state.actualBitsPerToken
      let length1 := t.1 / (state.actualMaxDistance + 1) + state.actualMinLength
      let distance := t.1 % (state.actualMaxDistance + 1)
      let delta := u32sub (u32sub state.destLength distance) 1
      let c := LZ77CopyLoop length1 state.dest state.byteIndex delta state.destLength
      (length1, {state with bitstream := t.2, dest := c.1, byteIndex := c.2})

/-- DecompressLZ77Block exactly as the specification words it: the delta is
the plain value dest_length - distance - 1. -/
def DecompressLZ77BlockSpec (state : LZ77State) : Nat × LZ77State :=
  if state.byteIndex ≥ state.byteLength then (CL_COMPRESSOR_END_TOKEN, state)
  else
    let d := ReadBitstream state.bitstream 1
    if d.1 = 0 then
      let lit := ReadBitstream d.2 state.actualBitsPerSymbol
      (1, {state with bitstream := lit.2,
                      dest := state.dest.set (state.byteIndex % state.destLength) (lit.1 % 256),
                      byteIndex := state.byteIndex + 1})
    else
      let t := ReadBitstream d.2 state.actualBitsPerToken
      let length1 := t.1 / (state.actualMaxDistance + 1) + state.actualMinLength
      let distance := t.1 % (state.actualMaxDistance + 1)
      let delta := state.destLength - distance - 1
      let c := LZ77CopyLoop length1 state.dest state.byteIndex delta state.destLength
      (length1, {state with bitstream := t.2, dest := c.1, byteIndex := c.2})

/-! Fixed and Golomb sub-coders. -/

/-- FixedState_t. -/
structure FixedState where
  bitstream : Bitstream
  bitsPerSymbol : Nat
deriving DecidableEq

/-- ReadFixedHeaderNoLength. -/
def ReadFixedHeaderNoLength (state : FixedState) : FixedState :=
  let r := DecodeUniversalLomont1 state.bitstream 3 0
  {state with bitstream := r.2, bitsPerSymbol := r.1 + 1}

/-- DecompressFixedSymbol. -/
def DecompressFixedSymbol (state : FixedState) : Nat × FixedState :=
  let r := ReadBitstream state.bitstream state.bitsPerSymbol
  (r.1, {state with bitstream := r.2})

/-- GolombState_t. -/
structure GolombState where
  bitstream : Bitstream
  parameter : Nat
deriving DecidableEq

/-- ReadGolombHeaderNoLength. -/
def ReadGolombHeaderNoLength (state : GolombState) : GolombState :=
  let r := DecodeUniversalLomont1 state.bitstream 6 0
  {state with bitstream := r.2, parameter := r.1}

/-- DecodeTruncated: truncated binary code for range n.  The 1U << k shift
and the subtractions are uint32 operations. -/
def DecodeTruncated (bs : Bitstream) (n : Nat) : Nat × Bitstream :=
  let k := BitsRequired n
  let u := u32sub ((1 <<< k) % U32) n
  let x := ReadBitstream bs (k - 1)
  if u ≤ x.1 then
    let b := ReadBitstream x.2 1
    (u32sub ((2 * x.1 + b.1) % U32) u, b.2)
  else (x.1, x.2)

/-- DecompressGolombSymbol: the while loop counts leading one bits (one
fewer than the reads consumed by the shared unary-run reader). -/
def DecompressGolombSymbol (state : GolombState) : Nat × GolombState :=
  let run := ReadOnesRun state.bitstream
  let q := run.1 - 1
  let t := DecodeTruncated run.2 state.parameter
  ((q * state.parameter + t.1) % U32, {state with bitstream := t.2})

/-! LZCL dispatcher. -/

/-- LZCLSubCodec_t.  In C the four states overlay in a union; only the state
selected by codecType is ever written or read, so disjoint fields are
behaviorally identical; after memset all four are zero. -/
structure LZCLSubCodec where
  fixedState : FixedState
  arithmeticState : ArithmeticState
  huffmanState : HuffmanState
  golombState : GolombState
  codecType : Nat
  bitLength : Nat
deriving DecidableEq

/-- The all-zero arithmetic state produced by memset (a NULL data pointer is
the empty byte list). -/
def zeroArithmeticState : ArithmeticState where
  bitstream := ⟨[], 0⟩
  lowValue := 0
  highValue := 0
  total := 0
  symbolMin := 0
  tableStartBitPosition := 0
  buffer := 0
  bitLength := 0
  bitsRead := 0

/-- The all-zero Huffman state produced by memset. -/
def zeroHuffmanState : HuffmanState where
  bitstream := ⟨[], 0⟩
  tablePosition := 0
  byteLength := 0
  bitsPerSymbol := 0
  minCodewordLength := 0
  maxCodewordLength := 0
  bitsPerCodelengthCount := 0

/-- The all-zero LZCL sub-codec produced by memset. -/
def zeroSubCodec : LZCLSubCodec where
  fixedState := { bitstream := ⟨[], 0⟩, bitsPerSymbol := 0 }
  arithmeticState := zeroArithmeticState
  huffmanState := zeroHuffmanState
  golombState := { bitstream := ⟨[], 0⟩, parameter := 0 }
  codecType := 0
  bitLength := 0

/-- DecodeLZCLSymbol: dispatch on codecType. -/
def DecodeLZCLSymbol (fuel : Nat) (codec : LZCLSubCodec) : Option (Nat × LZCLSubCodec) :=
  if codec.codecType = 0 then
    let r := DecompressFixedSymbol codec.fixedState
    some (r.1, {codec with fixedState := r.2})
  else if codec.codecType = 1 then
    match DecompressArithmeticSymbol fuel codec.arithmeticState with
    | none => none
    | some r => some (r.1, {codec with arithmeticState := r.2})
  else if codec.codecType = 2 then
    match DecompressHuffmanSymbol fuel codec.huffmanState with
    | none => none
    | some r => some (r.1, {codec with huffmanState := r.2})
  else if codec.codecType = 3 then
    let r := DecompressGolombSymbol codec.golombState
    some (r.1, {codec with golombState := r.2})
  else some (195936478, codec)

/-- ReadLZCLItem: codec type, encoded bit length, sub-codec header parsed at
the current cursor, then skip the main cursor past the bitLength region.
Huffman sub-codecs get byteLength 0xFFFFFFFF, the continual-run marker. -/
def ReadLZCLItem (decoder : LZCLSubCodec) (bitstream : Bitstream) : LZCLSubCodec × Bitstream :=
  let t := ReadBitstream bitstream 2
  let l := DecodeUniversalLomont1 t.2 6 0
  let decoder1 := {decoder with codecType := t.1, bitLength := l.1}
  let bs1 := l.2
  let decoder2 :=
    if decoder1.codecType = 0 then
      let fs := ReadFixedHeaderNoLength {decoder1.fixedState with bitstream := ⟨bs1.data, bs1.position⟩}
      {decoder1 with fixedState := fs}
    else if decoder1.codecType = 1 then
      let ar := ReadArithmeticHeaderNoLength {decoder1.arithmeticState with bitstream := ⟨bs1.data, bs1.position⟩}
      {decoder1 with arithmeticState := ar}
    else if decoder1.codecType = 2 then
      let hs := ReadHuffmanHeaderNoLength {decoder1.huffmanState with bitstream := ⟨bs1.data, bs1.position⟩}
      {decoder1 with huffmanState := {hs with byteLength := 4294967295}}
    else if decoder1.codecType = 3 then
      let gs := ReadGolombHeaderNoLength {decoder1.golombState with bitstream := ⟨bs1.data, bs1.position⟩}
      {decoder1 with golombState := gs}
    else decoder1
  (decoder2, ⟨bs1.data, bs1.position + decoder2.bitLength⟩)

/-- LZCLState_t.  The C unions make decisionCodec alias decisionRunCodec and
tokenCodec alias distanceCodec (lengthCodec occupies separate storage), so
each aliased pair is one field here. -/
structure LZCLState where
  actualMinLength : Nat
  actualMaxDistance : Nat
  byteLength : Nat
  byteIndex : Nat
  bitstream : Bitstream
  useDecisionRuns : Nat
  decisionCodec : LZCLSubCodec
  literalCodec : LZCLSubCodec
  useTokens : Nat
  tokenCodec : LZCLSubCodec
  lengthCodec : LZCLSubCodec
  initialValue : Nat
  dest : List Nat
  destLength : Nat
  curRun : Int
  runsLeft : Nat
deriving DecidableEq

/-- decisionRunCodec is the union alias of decisionCodec. -/
def LZCLState.decisionRunCodec (s : LZCLState) : LZCLSubCodec := s.decisionCodec

/-- distanceCodec is the union alias of tokenCodec. -/
def LZCLState.distanceCodec (s : LZCLState) : LZCLSubCodec := s.tokenCodec

/-- GetLZCLDecision.  curRun xor 1 is written as the flip of the low bit
(add one when even, subtract one when odd: identical on twos-complement
integers); the runsLeft decrement is uint32. -/
def GetLZCLDecision (fuel : Nat) (state : LZCLState) : Option (Nat × LZCLState) :=
  if state.useDecisionRuns = 0 then
    match DecodeLZCLSymbol fuel state.decisionCodec with
    | none => none
    | some r => some (r.1, {state with decisionCodec := r.2})
  else
    let step1 : Option LZCLState :=
      if state.curRun = -1 then
        match DecodeLZCLSymbol fuel state.decisionRunCodec with
        | none => none
        | some r =>
            some {state with curRun := (state.initialValue : Int), runsLeft := r.1,
                             decisionCodec := r.2}
      else some state
    match step1 with
    | none => none
    | some s1 =>
        let step2 : Option LZCLState :=
          if s1.runsLeft = 0 then
            match DecodeLZCLSymbol fuel s1.decisionRunCodec with
            | none => none
            | some r =>
                let toggled := if s1.curRun % 2 = 0 then s1.curRun + 1 else s1.curRun - 1
                some {s1 with curRun := toggled, runsLeft := r.1, decisionCodec := r.2}
          else some s1
        match step2 with
        | none => none
        | some s2 =>
            some ((s2.curRun.emod (U32 : Int)).toNat, {s2 with runsLeft := u32sub s2.runsLeft 1})

/-- GetLZCLDecodedToken: with useTokens zero decode distance then length from
the separate codecs (distanceCodec aliasing tokenCodec), else decode one
combined token and split it.  Returns (distance, length, state). -/
def GetLZCLDecodedToken (fuel : Nat) (state : LZCLState) : Option (Nat × Nat × LZCLState) :=
  if state.useTokens = 0 then
    match DecodeLZCLSymbol fuel state.distanceCodec with
    | none => none
    | some d =>
        match DecodeLZCLSymbol fuel state.lengthCodec with
        | none => none
        | some l =>
            some (d.1, (l.1 + state.actualMinLength) % U32,
              {state with tokenCodec := d.2, lengthCodec := l.2})
  else
    match DecodeLZCLSymbol fuel state.tokenCodec with
    | none => none
    | some t =>
        some (t.1 % (state.actualMaxDistance + 1),
          (t.1 / (state.actualMaxDistance + 1) + state.actualMinLength) % U32,
          {state with tokenCodec := t.2})

/-- DecompressLZCLStart: memset-zero the state, set curRun to -1, read the
structural header and the sub-codec items.  Note the source never assigns
useTokens, which stays at its memset value 0. -/
def DecompressLZCLStart (source : List Nat) (dest : List Nat) (destLength : Nat) : LZCLState :=
  let s0 : LZCLState :=
    { actualMinLength := 0, actualMaxDistance := 0, byteLength := 0, byteIndex := 0,
      bitstream := ⟨source, 0⟩, useDecisionRuns := 0, decisionCodec := zeroSubCodec,
      literalCodec := zeroSubCodec, useTokens := 0, tokenCodec := zeroSubCodec,
      lengthCodec := zeroSubCodec, initialValue := 0, dest := dest, destLength := destLength,
      curRun := -1, runsLeft := 0 }
  let h1 := DecodeUniversalLomont1 s0.bitstream 6 0
  let h2 := DecodeUniversalLomont1 h1.2 10 0
  let h3 := DecodeUniversalLomont1 h2.2 2 0
  let s2 := {s0 with byteLength := h1.1, actualMaxDistance := h2.1, actualMinLength := h3.1}
  let d := ReadBitstream h3.2 1
  let s3p : LZCLState × Bitstream :=
    if d.1 = 0 then
      let r := ReadLZCLItem s2.decisionCodec d.2
      ({s2 with useDecisionRuns := 0, decisionCodec := r.1}, r.2)
    else
      let iv := ReadBitstream d.2 1
      let r := ReadLZCLItem s2.decisionCodec iv.2
      ({s2 with useDecisionRuns := 1, initialValue := iv.1, decisionCodec := r.1}, r.2)
  let lit := ReadLZCLItem s3p.1.literalCodec s3p.2
  let s4 := {s3p.1 with literalCodec := lit.1}
  let tok := ReadBitstream lit.2 1
  let s5p : LZCLState × Bitstream :=
    if tok.1 = 0 then
      let r := ReadLZCLItem s4.tokenCodec tok.2
      ({s4 with tokenCodec := r.1}, r.2)
    else
      let r1 := ReadLZCLItem s4.distanceCodec tok.2
      let r2 := ReadLZCLItem s4.lengthCodec r1.2
      ({s4 with tokenCodec := r1.1, lengthCodec := r2.1}, r2.2)
  {s5p.1 with bitstream := s5p.2}

/-- Copy loop of DecompressLZCLBlock (the same statements as the LZ77 copy,
embedded from its own source lines). -/
def LZCLCopyLoop : Nat → List Nat → Nat → Nat → Nat → List Nat × Nat
  | 0, dest, byteIndex, _, _ => (dest, byteIndex)
  | i + 1, dest, byteIndex, delta, destLength =>
      LZCLCopyLoop i
        (dest.set (byteIndex % destLength) (dest.getD ((byteIndex + delta) % destLength) 0))
        (byteIndex + 1) delta destLength

/-- DecompressLZCLBlock. -/
def DecompressLZCLBlock (fuel : Nat) (state : LZCLState) : Option (Nat × LZCLState) :=
  if state.byteLength ≤ state.byteIndex then some (CL_COMPRESSOR_END_TOKEN, state)
  else
    match GetLZCLDecision fuel state with
    | none => none
    | some (dec, s1) =>
        if dec = 0 then
          match DecodeLZCLSymbol fuel s1.literalCodec with
          | none => none
          | some r =>
              let s1' := {s1 with literalCodec := r.2,
                                  dest := s1.dest.set (s1.byteIndex % s1.destLength) (r.1 % 256),
                                  byteIndex := s1.byteIndex + 1}
              some (1, s1')
        else
          match GetLZCLDecodedToken fuel s1 with
          | none => none
          | some (distance, length1, s2) =>
              let delta := u32sub (u32sub s2.destLength distance) 1
              let c := LZCLCopyLoop length1 s2.dest s2.byteIndex delta s2.destLength
              some (length1, {s2 with dest := c.1, byteIndex := c.2})

/-! Concrete example inputs used by the counterexamples and witnesses. -/

/-- An arithmetic state whose compressed region is 1 bit long, with that bit
set: bitsRead 0, bitLength 1, next stream bit 1. -/
def arithOneBitState : ArithmeticState :=
  { zeroArithmeticState with bitstream := ⟨[128], 0⟩, bitLength := 1, bitsRead := 0 }

/-- An LZCL stream whose token-mode header bit is 0 (token mode): byte length
3, max distance 2, min length 1, plain decisions via a Fixed sub-codec,
Fixed literals, then one Fixed token codec with 3-bit symbols whose region
holds the token bits 101. -/
def lzclTokenModeSource : List Nat := [6, 0, 136, 8, 0, 64, 2, 10, 128]

/-- The state DecompressLZCLStart builds from the token-mode stream. -/
def lzclBugState : LZCLState := DecompressLZCLStart lzclTokenModeSource [0, 0, 0, 0] 4

/-- An LZ77 state about to decode a copy: decision bit 1 then the 4-bit token
0101 (token 5, distance 2, length 2 with min length 1). -/
def lz77ExampleState : LZ77State :=
  { bitstream := ⟨[168], 0⟩, byteIndex := 0, byteLength := 10, dest := [1, 2, 3, 4],
    destLength := 4, actualMaxToken := 100, actualMaxDistance := 2, actualMinLength := 1,
    actualBitsPerSymbol := 8, actualBitsPerToken := 4 }

/-- An arithmetic state at the top of the range (low 0, high 2^31 - 1,
buffer 0, total 1) whose BASC table holds the single count 1, so the lookup
returns (symbolMin, 0, 1). -/
def arithInvState : ArithmeticState :=
  { bitstream := ⟨[2, 6], 0⟩, lowValue := 0, highValue := 2147483647, total := 1,
    symbolMin := 5, tableStartBitPosition := 0, buffer := 0, bitLength := 0, bitsRead := 0 }

/-- A Huffman header whose symbols are 32 bits wide and whose single
codeword 0 maps to the all-ones symbol 0xFFFFFFFF. -/
def huffWideSource : List Nat := [243, 0, 15, 255, 255, 255, 248]

/-- The wide-symbol Huffman state with the LZCL continual-run marker, built
the way ReadLZCLItem builds its Huffman sub-codec states. -/
def huffWideState : HuffmanState :=
  {ReadHuffmanHeaderNoLength {zeroHuffmanState with bitstream := ⟨huffWideSource, 0⟩} with
     byteLength := 4294967295}

/-- A small Huffman state mid-decode: 1-bit symbols, table at bit 0 holding
count 1 and symbol 1, cursor at the codeword bit 0. -/
def huffSmallState : HuffmanState :=
  { bitstream := ⟨[192], 2⟩, tablePosition := 0, byteLength := 5, bitsPerSymbol := 1,
    minCodewordLength := 1, maxCodewordLength := 2, bitsPerCodelengthCount := 1 }

/-- The state DecompressHuffmanSymbol leaves after decoding huffSmallState. -/
def huffSmallStateNext : HuffmanState :=
  {huffSmallState with byteLength := 4, bitstream := ⟨[192], 3⟩}

/-- A Huffman stream declaring byte length 2 with 1-bit symbols: codebook
(one codeword of length 1 mapping to symbol 1) then the two codewords 0 0. -/
def huffShortSource : List Nat := [4, 0, 1, 128]

theorem bitAt_le_one (data : List Nat) (pos : Nat) : bitAt data pos ≤ 1 := by
  have h : (data.getD (pos / 8) 0 >>> (7 - pos % 8)) &&& 1
      = (data.getD (pos / 8) 0 >>> (7 - pos % 8)) % 2 := Nat.and_one_is_mod _
  simp only [bitAt, h]
  omega

theorem bitAt_eq_zero_of_ge (data : List Nat) (pos : Nat)
    (h : 8 * data.length ≤ pos) : bitAt data pos = 0 := by
  have hlen : data.length ≤ pos / 8 := by omega
  have hz : data.getD (pos / 8) 0 = 0 := List.getD_eq_default _ _ hlen
  rw [bitAt, hz]
  simp

theorem readBitstreamGo_data (n : Nat) : ∀ bs v, (readBitstreamGo n bs v).2.data = bs.data := by
  induction n with
  | zero => intro bs v; rfl
  | succ n ih => intro bs v; simpa [readBitstreamGo] using ih _ _

theorem readBitstreamGo_position (n : Nat) :
    ∀ bs v, (readBitstreamGo n bs v).2.position = bs.position + n := by
  induction n with
  | zero => intro bs v; simp [readBitstreamGo]
  | succ n ih =>
      intro bs v
      simp only [readBitstreamGo]
      rw [ih]
      simp; omega

theorem ReadBitstream_data (bs : Bitstream) (n : Nat) :
    (ReadBitstream bs n).2.data = bs.data := readBitstreamGo_data n bs 0

theorem ReadBitstream_position (bs : Bitstream) (n : Nat) :
    (ReadBitstream bs n).2.position = bs.position + n := readBitstreamGo_position n bs 0

theorem readBitstreamGo_value (n : Nat) : ∀ bs v, v < U32 → (readBitstreamGo n bs v).1 =
    (v * 2 ^ n + ∑ i in Finset.range n, bitAt bs.data (bs.position + i) * 2 ^ (n - 1 - i)) % U32 := by
  induction n with
  | zero =>
      intro bs v hv
      simp [readBitstreamGo, Nat.mod_eq_of_lt hv]
  | succ n ih =>
      intro bs v hv
      simp only [readBitstreamGo]
      have hb : bitAt bs.data bs.position ≤ 1 := bitAt_le_one _ _
      have hU : U32 = 4294967296 := rfl
      have hlt : (2 * v) % U32 < U32 := Nat.mod_lt _ (by omega)
      have heven : (2 * v) % U32 % 2 = 0 := by
        rw [Nat.mod_mod_of_dvd _ (⟨2147483648, by omega⟩ : (2 : Nat) ∣ U32)]
        omega
      have hv' : (2 * v) % U32 + bitAt bs.data bs.position < U32 := by omega
      rw [ih _ _ hv']
      have hcong : (2 * v) % U32 + bitAt bs.data bs.position
          = (2 * v + bitAt bs.data bs.position) % U32 := by
        conv_lhs => rw [← Nat.mod_eq_of_lt hv']
        rw [Nat.mod_add_mod]
      rw [hcong]
      have hsum : ∑ i in Finset.range (n + 1), bitAt bs.data (bs.position + i) * 2 ^ (n + 1 - 1 - i)
          = bitAt bs.data bs.position * 2 ^ n
            + ∑ i in Finset.range n, bitAt bs.data (bs.position + 1 + i) * 2 ^ (n - 1 - i) := by
        rw [Finset.sum_range_succ']
        have h : ∀ i, bitAt bs.data (bs.position + (i + 1)) * 2 ^ (n + 1 - 1 - (i + 1))
            = bitAt bs.data (bs.position + 1 + i) * 2 ^ (n - 1 - i) := by
          intro i
          congr 2
          · omega
          · omega
        simp only [h]
        simp [add_comm]
      rw [hsum]
      have step1 : ((2 * v + bitAt bs.data bs.position) % U32 * 2 ^ n
            + ∑ i in Finset.range n, bitAt bs.data (bs.position + 1 + i) * 2 ^ (n - 1 - i)) % U32
          = ((2 * v + bitAt bs.data bs.position) * 2 ^ n
            + ∑ i in Finset.range n, bitAt bs.data (bs.position + 1 + i) * 2 ^ (n - 1 - i)) % U32 :=
        ((Nat.mod_modEq _ _).mul_right _).add_right _
      rw [step1]
      congr 1
      ring

/-- Sum of powers 2^0 + ... + 2^(n-1) = 2^n - 1. -/
theorem sum_two_pow (n : Nat) : (∑ i in Finset.range n, 2 ^ i) = 2 ^ n - 1 := by
  induction n with
  | zero => simp
  | succ n ih =>
      rw [Finset.sum_range_succ, ih]
      have : 1 ≤ 2 ^ n := Nat.one_le_two_pow
      have : 2 ^ (n + 1) = 2 * 2 ^ n := by ring
      omega

theorem bit_sum_lt (data : List Nat) (p n : Nat) :
    (∑ i in Finset.range n, bitAt data (p + i) * 2 ^ (n - 1 - i)) < 2 ^ n := by
  have hle : (∑ i in Finset.range n, bitAt data (p + i) * 2 ^ (n - 1 - i))
      ≤ ∑ i in Finset.range n, 2 ^ (n - 1 - i) := by
    apply Finset.sum_le_sum
    intro i hi
    have := bitAt_le_one data (p + i)
    calc bitAt data (p + i) * 2 ^ (n - 1 - i) ≤ 1 * 2 ^ (n - 1 - i) :=
          Nat.mul_le_mul_right _ this
      _ = 2 ^ (n - 1 - i) := one_mul _
  have hrefl : (∑ i in Finset.range n, 2 ^ (n - 1 - i)) = ∑ i in Finset.range n, 2 ^ i := by
    exact Finset.sum_range_reflect (fun i => 2 ^ i) n
  rw [hrefl, sum_two_pow] at hle
  have : 1 ≤ 2 ^ n := Nat.one_le_two_pow
  omega

/-- The value of a k-bit read, k at most 32: no uint32 wrap occurs. -/
theorem ReadBitstream_value (bs : Bitstream) (k : Nat) (hk : k ≤ 32) :
    (ReadBitstream bs k).1
      = ∑ i in Finset.range k, bitAt bs.data (bs.position + i) * 2 ^ (k - 1 - i) := by
  rw [ReadBitstream, readBitstreamGo_value k bs 0 (by norm_num [U32])]
  have h1 : (∑ i in Finset.range k, bitAt bs.data (bs.position + i) * 2 ^ (k - 1 - i)) < 2 ^ k :=
    bit_sum_lt _ _ _
  have h2 : (2 : Nat) ^ k ≤ 2 ^ 32 := Nat.pow_le_pow_right (by norm_num) hk
  have : (2 : Nat) ^ 32 = U32 := by norm_num [U32]
  rw [zero_mul, zero_add, Nat.mod_eq_of_lt (by omega)]

theorem ReadBitstream_lt (bs : Bitstream) (k : Nat) (hk : k ≤ 32) :
    (ReadBitstream bs k).1 < 2 ^ k := by
  rw [ReadBitstream_value bs k hk]
  exact bit_sum_lt _ _ _

/-- Reading a single bit returns exactly the bit under the cursor. -/
theorem ReadBitstream_one (bs : Bitstream) :
    (ReadBitstream bs 1).1 = bitAt bs.data bs.position := by
  rw [ReadBitstream_value bs 1 (by norm_num)]
  simp

theorem u32sub_eq (a b : Nat) (hba : b ≤ a) (ha : a < U32) : u32sub a b = a - b := by
  have hU : U32 = 4294967296 := rfl
  rw [u32sub, Nat.mod_eq_of_lt (by omega : b < U32)]
  rw [show a + U32 - b = U32 + (a - b) by omega, Nat.add_mod_left, Nat.mod_eq_of_lt (by omega)]

/-- C4: for every bitstream, position, and k at most 32, ReadBitstream
returns the integer whose MSB-first bits are the stream bits at positions
p, p+1, ..., p+k-1 (bit (7 - ((p+i) mod 8)) of byte data[(p+i)/8]), and
advances the cursor by exactly k while leaving the data unchanged. -/
theorem ReadBitstream_spec (bs : Bitstream) (k : Nat) (hk : k ≤ 32)
    (hbound : bs.position + k ≤ 8 * bs.data.length) :
    (ReadBitstream bs k).1
        = ∑ i in Finset.range k, bitAt bs.data (bs.position + i) * 2 ^ (k - 1 - i) ∧
    (ReadBitstream bs k).2.position = bs.position + k ∧
    (ReadBitstream bs k).2.data = bs.data :=
  ⟨ReadBitstream_value bs k hk, ReadBitstream_position bs k, ReadBitstream_data bs k⟩

/-- C4 witness: reading 8 bits at position 0 of a stream whose first byte is
0xA5 = 165 returns 0xA5 and moves the cursor to 8. -/
theorem ReadBitstream_spec_witness :
    ((8 : Nat) ≤ 32 ∧ (0 : Nat) + 8 ≤ 8 * ([165] : List Nat).length) ∧
    ((ReadBitstream ⟨[165], 0⟩ 8).1
        = ∑ i in Finset.range 8, bitAt [165] (0 + i) * 2 ^ (8 - 1 - i) ∧
      (ReadBitstream ⟨[165], 0⟩ 8).2.position = 0 + 8 ∧
      (ReadBitstream ⟨[165], 0⟩ 8).2.data = [165]) ∧
    (ReadBitstream ⟨[165], 0⟩ 8).1 = 165 :=
  ⟨⟨by norm_num, by norm_num⟩, ReadBitstream_spec ⟨[165], 0⟩ 8 (by norm_num) (by norm_num),
    by decide⟩

/-- C9: ReadFromBitstreamPosition returns exactly the value ReadBitstream
would return with the cursor at pos, reports back pos + k, and leaves the
bitstream cursor and data untouched. -/
theorem ReadFromBitstreamPosition_spec (bs : Bitstream) (pos k : Nat) :
    (ReadFromBitstreamPosition bs pos k).1 = (ReadBitstream ⟨bs.data, pos⟩ k).1 ∧
    (ReadFromBitstreamPosition bs pos k).2.1 = pos + k ∧
    (ReadFromBitstreamPosition bs pos k).2.2.position = bs.position ∧
    (ReadFromBitstreamPosition bs pos k).2.2.data = bs.data := by
  refine ⟨rfl, ?_, rfl, ?_⟩
  · show (ReadBitstream ⟨bs.data, pos⟩ k).2.position = pos + k
    rw [ReadBitstream_position]
  · show (ReadBitstream ⟨bs.data, pos⟩ k).2.data = bs.data
    rw [ReadBitstream_data]

theorem decodeUL1Go_eq_spec : ∀ fuel bs (cs dc : Int) v sh,
    DecodeUniversalLomont1Go fuel bs cs dc v sh = DecodeUniversalLomont1SpecGo fuel bs cs dc v sh := by
  intro fuel
  induction fuel with
  | zero => intro bs cs dc v sh; rfl
  | succ f ih =>
      intro bs cs dc v sh
      simp only [DecodeUniversalLomont1Go, DecodeUniversalLomont1SpecGo]
      have hmax : (if cs + dc ≤ 0 then (1 : Int) else cs + dc) = max 1 (cs + dc) := by
        rw [max_def]
        split_ifs <;> omega
      rcases Decidable.em ((ReadBitstream bs 1).1 ≠ 0) with hp | hp <;>
        rcases Decidable.em (dc ≠ 0) with hd | hd <;>
          simp [hp, hd, ih, hmax]

/-- C3: DecodeUniversalLomont1 implements exactly the specified loop: read a
continuation bit and a chunk, accumulate chunk shifted by the running shift,
grow the shift, and replace chunkSize by max 1 (chunkSize + deltaChunk) when
deltaChunk is nonzero, exiting after the first zero continuation bit; in
particular negative deltas clamp the chunk size at 1. -/
theorem DecodeUniversalLomont1_spec_eq (bs : Bitstream) (chunkSize deltaChunk : Int) :
    DecodeUniversalLomont1 bs chunkSize deltaChunk
      = DecodeUniversalLomont1Spec bs chunkSize deltaChunk :=
  decodeUL1Go_eq_spec _ _ _ _ _ _

/-- C1 (amended): read_arithmetic_bit always increments bitsRead by one, and
returns the next stream bit exactly when the incremented count is still
strictly below bitLength (entry bitsRead strictly below bitLength - 1 plus
one), returning zero otherwise; so the bit at index bitLength - 1 of the
compressed region is never delivered. -/
theorem ReadArithmeticBistream_spec (s : ArithmeticState) :
    (ReadArithmeticBistream s 1).2.bitsRead = s.bitsRead + 1 ∧
    (ReadArithmeticBistream s 1).1 =
      (if s.bitsRead + 1 < s.bitLength then bitAt s.bitstream.data s.bitstream.position else 0) ∧
    (ReadArithmeticBistream s 1).2.bitstream =
      (if s.bitsRead + 1 < s.bitLength then (ReadBitstream s.bitstream 1).2 else s.bitstream) := by
  simp only [ReadArithmeticBistream]
  split_ifs with h
  · exact ⟨rfl, ReadBitstream_one _, rfl⟩
  · exact ⟨rfl, rfl, rfl⟩

/-- C1 counterexample: a state with bitsRead 0 and bitLength 1 has
bits_read strictly below bit_length and the next stream bit is 1, yet the
call returns 0, not that bit: the claimed condition bits_read < bit_length
is off by one. -/
theorem ReadArithmeticBistream_claim_counterexample :
    arithOneBitState.bitsRead < arithOneBitState.bitLength ∧
    bitAt arithOneBitState.bitstream.data arithOneBitState.bitstream.position = 1 ∧
    (ReadArithmeticBistream arithOneBitState 1).1 = 0 ∧
    (ReadArithmeticBistream arithOneBitState 1).1
      ≠ bitAt arithOneBitState.bitstream.data arithOneBitState.bitstream.position := by
  decide

theorem LZCLCopyLoop_eq_LZ77CopyLoop (n : Nat) : ∀ dest byteIndex delta destLength,
    LZCLCopyLoop n dest byteIndex delta destLength
      = LZ77CopyLoop n dest byteIndex delta destLength := by
  induction n with
  | zero => intro dest bi delta dl; rfl
  | succ n ih =>
      intro dest bi delta dl
      simp only [LZCLCopyLoop, LZ77CopyLoop]
      exact ih _ _ _ _

theorem LZ77CopyLoop_byteIndex (n : Nat) : ∀ dest byteIndex delta destLength,
    (LZ77CopyLoop n dest byteIndex delta destLength).2 = byteIndex + n := by
  induction n with
  | zero => intro dest bi delta dl; rfl
  | succ n ih =>
      intro dest bi delta dl
      simp only [LZ77CopyLoop]
      rw [ih]
      omega

/-- C8: from the same starting configuration (distance, length, byteIndex,
dest contents, destLength) the copy branch of DecompressLZCLBlock and the
copy branch of DecompressLZ77Block compute the same uint32 delta
destLength - distance - 1, produce identical destination contents and final
byteIndex (advanced by length), and both branches return length. -/
theorem LZCL_copy_matches_LZ77 (distance length byteIndex destLength : Nat) (dest : List Nat) :
    LZCLCopyLoop length dest byteIndex (u32sub (u32sub destLength distance) 1) destLength
      = LZ77CopyLoop length dest byteIndex (u32sub (u32sub destLength distance) 1) destLength ∧
    (LZCLCopyLoop length dest byteIndex (u32sub (u32sub destLength distance) 1) destLength).2
      = byteIndex + length :=
  ⟨LZCLCopyLoop_eq_LZ77CopyLoop _ _ _ _ _, by
    rw [LZCLCopyLoop_eq_LZ77CopyLoop]
    exact LZ77CopyLoop_byteIndex _ _ _ _ _⟩

/-- C5: one DecompressLZ77Block call behaves exactly as specified, stated as
equality with the transcription of the specification text (the spec computes
delta by plain subtraction, the code by uint32 subtraction; they agree when
the destination holds at least maxDistance + 1 bytes). -/
theorem DecompressLZ77Block_spec (s : LZ77State)
    (hmd : s.actualMaxDistance < s.destLength) (hdl : s.destLength < U32) :
    DecompressLZ77Block s = DecompressLZ77BlockSpec s := by
  simp only [DecompressLZ77Block, DecompressLZ77BlockSpec, ge_iff_le]
  split_ifs with h1 h2
  · rfl
  · rfl
  · have hdist : (ReadBitstream (ReadBitstream s.bitstream 1).2 s.actualBitsPerToken).1
        % (s.actualMaxDistance + 1) ≤ s.actualMaxDistance :=
      Nat.le_of_lt_succ (Nat.mod_lt _ (Nat.succ_pos _))
    have hlt : (ReadBitstream (ReadBitstream s.bitstream 1).2 s.actualBitsPerToken).1
        % (s.actualMaxDistance + 1) < s.destLength := by omega
    have hδ : u32sub (u32sub s.destLength
          ((ReadBitstream (ReadBitstream s.bitstream 1).2 s.actualBitsPerToken).1
            % (s.actualMaxDistance + 1))) 1
        = s.destLength
          - (ReadBitstream (ReadBitstream s.bitstream 1).2 s.actualBitsPerToken).1
            % (s.actualMaxDistance + 1) - 1 := by
      rw [u32sub_eq _ _ (le_of_lt hlt) hdl, u32sub_eq _ _ (by omega) (by omega)]
    rw [hδ]

/-- C5 witness: a concrete copy step (token 5, max distance 2, min length 1,
destination of four bytes) where code and specification agree. -/
theorem DecompressLZ77Block_spec_witness :
    (lz77ExampleState.actualMaxDistance < lz77ExampleState.destLength ∧
      lz77ExampleState.destLength < U32) ∧
    DecompressLZ77Block lz77ExampleState = DecompressLZ77BlockSpec lz77ExampleState :=
  ⟨⟨by decide, by decide⟩, DecompressLZ77Block_spec lz77ExampleState (by decide) (by decide)⟩

theorem HuffmanWalk_lt (bpc bps : Nat) (hbps : bps ≤ 32) : ∀ fuel bs acc first ti sym bs',
    HuffmanWalk bpc bps fuel bs acc first ti = some (sym, bs') → sym < 2 ^ bps := by
  intro fuel
  induction fuel with
  | zero => intro bs acc first ti sym bs' h; simp [HuffmanWalk] at h
  | succ f ih =>
      intro bs acc first ti sym bs' h
      rw [HuffmanWalk] at h
      split_ifs at h with hc
      · have hp := Option.some.inj h
        rw [Prod.mk.injEq] at hp
        exact hp.1 ▸ ReadBitstream_lt _ _ hbps
      · exact ih _ _ _ _ _ _ h

/-- C7 (amended): DecompressHuffmanSymbol returns END_TOKEN on entry
byteLength 0 without changing the state; on a successful decode with
byteLength neither 0 nor 0xFFFFFFFF it decrements byteLength by one, and
with the open-ended marker 0xFFFFFFFF it leaves byteLength unchanged; in
both cases the decoded symbol differs from END_TOKEN provided the symbol
width is at most 31 bits (a crafted 32-bit-symbol table can produce the
all-ones symbol, which collides with END_TOKEN). -/
theorem DecompressHuffmanSymbol_byteLength (fuel : Nat) (s : HuffmanState) (sym : Nat)
    (s' : HuffmanState) (h : DecompressHuffmanSymbol fuel s = some (sym, s'))
    (hbps : s.bitsPerSymbol ≤ 31) :
    (s.byteLength = 0 → sym = CL_COMPRESSOR_END_TOKEN ∧ s' = s) ∧
    (s.byteLength ≠ 0 → s.byteLength ≠ 4294967295 →
      s'.byteLength = s.byteLength - 1 ∧ sym ≠ CL_COMPRESSOR_END_TOKEN) ∧
    (s.byteLength = 4294967295 →
      s'.byteLength = 4294967295 ∧ sym ≠ CL_COMPRESSOR_END_TOKEN) := by
  rw [DecompressHuffmanSymbol] at h
  split_ifs at h with h0 hm
  · have h1 := Option.some.inj h
    refine ⟨fun _ => ⟨(congrArg Prod.fst h1).symm, (congrArg Prod.snd h1).symm⟩,
      fun hne _ => absurd h0 hne, fun hmm => absurd (hmm ▸ h0) (by norm_num)⟩
  · -- byteLength nonzero and not the marker: it is decremented
    simp only [] at h
    have hsymlt : sym < 2 ^ s.bitsPerSymbol := by
      split at h
      · simp at h
      · have hp := Option.some.inj h
        rw [Prod.mk.injEq] at hp
        rename_i r heq
        exact hp.1 ▸ HuffmanWalk_lt _ _ (by omega) _ _ _ _ _ _ _ heq
    have hbl : s'.byteLength = s.byteLength - 1 := by
      split at h
      · simp at h
      · have hp := Option.some.inj h
        rw [Prod.mk.injEq] at hp
        rw [← hp.2]
    have hEnd : sym ≠ CL_COMPRESSOR_END_TOKEN := by
      have h2 : (2 : Nat) ^ s.bitsPerSymbol ≤ 2 ^ 31 := Nat.pow_le_pow_right (by norm_num) hbps
      have h3 : (2 : Nat) ^ 31 = 2147483648 := by norm_num
      rw [CL_COMPRESSOR_END_TOKEN]
      omega
    exact ⟨fun hz => absurd hz h0, fun _ _ => ⟨hbl, hEnd⟩, fun hmm => absurd hmm hm⟩
  · -- the open-ended marker: byteLength is untouched
    simp only [] at h
    rw [not_not] at hm
    have hsymlt : sym < 2 ^ s.bitsPerSymbol := by
      split at h
      · simp at h
      · have hp := Option.some.inj h
        rw [Prod.mk.injEq] at hp
        rename_i r heq
        exact hp.1 ▸ HuffmanWalk_lt _ _ (by omega) _ _ _ _ _ _ _ heq
    have hbl : s'.byteLength = s.byteLength := by
      split at h
      · simp at h
      · have hp := Option.some.inj h
        rw [Prod.mk.injEq] at hp
        rw [← hp.2]
    have hEnd : sym ≠ CL_COMPRESSOR_END_TOKEN := by
      have h2 : (2 : Nat) ^ s.bitsPerSymbol ≤ 2 ^ 31 := Nat.pow_le_pow_right (by norm_num) hbps
      have h3 : (2 : Nat) ^ 31 = 2147483648 := by norm_num
      rw [CL_COMPRESSOR_END_TOKEN]
      omega
    exact ⟨fun hz => absurd hz h0, fun _ hne => absurd hm hne, fun _ => ⟨hm ▸ hbl, hEnd⟩⟩

/-- C7 witness: a successful decode of a 1-bit-symbol codebook, byteLength 5
dropping to 4 and the symbol 1 differing from END_TOKEN. -/
theorem DecompressHuffmanSymbol_byteLength_witness :
    (DecompressHuffmanSymbol 4 huffSmallState = some (1, huffSmallStateNext) ∧
      huffSmallState.bitsPerSymbol ≤ 31) ∧
    ((huffSmallState.byteLength = 0 → 1 = CL_COMPRESSOR_END_TOKEN ∧
        huffSmallStateNext = huffSmallState) ∧
     (huffSmallState.byteLength ≠ 0 → huffSmallState.byteLength ≠ 4294967295 →
        huffSmallStateNext.byteLength = huffSmallState.byteLength - 1 ∧
        1 ≠ CL_COMPRESSOR_END_TOKEN) ∧
     (huffSmallState.byteLength = 4294967295 →
        huffSmallStateNext.byteLength = 4294967295 ∧ 1 ≠ CL_COMPRESSOR_END_TOKEN)) :=
  ⟨⟨by decide, by decide⟩,
    DecompressHuffmanSymbol_byteLength 4 huffSmallState 1 huffSmallStateNext (by decide) (by decide)⟩

/-- C7 counterexample: a Huffman state parsed from a real header with 32-bit
symbols and the open-ended marker byteLength 0xFFFFFFFF returns END_TOKEN
from a decode although its entry byteLength is not 0, contradicting both the
claimed exactness and the claimed impossibility under the marker. -/
theorem DecompressHuffmanSymbol_claim_counterexample :
    huffWideState.byteLength = 4294967295 ∧ huffWideState.byteLength ≠ 0 ∧
    (DecompressHuffmanSymbol 8 huffWideState).map Prod.fst = some CL_COMPRESSOR_END_TOKEN := by
  refine ⟨by decide, by decide, by decide⟩

theorem DecompressHuffmanLoop_bounds (fuel : Nat) : ∀ remaining st dest byteIndex count dest',
    DecompressHuffmanLoop fuel remaining st dest byteIndex = some (count, dest') →
    count ≤ byteIndex + remaining ∧ dest'.length = dest.length ∧
    ∀ i, byteIndex + remaining ≤ i → dest'.getD i 0 = dest.getD i 0 := by
  intro remaining
  induction remaining with
  | zero =>
      intro st dest byteIndex count dest' h
      have hp := Option.some.inj h
      rw [Prod.mk.injEq] at hp
      exact ⟨by omega, hp.2 ▸ rfl, fun i _ => hp.2 ▸ rfl⟩
  | succ r ih =>
      intro st dest byteIndex count dest' h
      rw [DecompressHuffmanLoop] at h
      split_ifs at h with h0
      · have hp := Option.some.inj h
        rw [Prod.mk.injEq] at hp
        exact ⟨by omega, hp.2 ▸ rfl, fun i _ => hp.2 ▸ rfl⟩
      · split at h
        · simp at h
        · split_ifs at h with hEnd
          · have hp := Option.some.inj h
            rw [Prod.mk.injEq] at hp
            exact ⟨by omega, hp.2 ▸ rfl, fun i _ => hp.2 ▸ rfl⟩
          · rename_i sym st1 heq
            have := ih st1 _ _ _ _ h
            refine ⟨by omega, ?_, ?_⟩
            · rw [this.2.1]
              simp
            · intro i hi
              rw [this.2.2 i (by omega)]
              have hne : byteIndex ≠ i := by omega
              simp [List.getD_eq_getElem?_getD, List.getElem?_set_ne hne]

/-- C10: whenever the one-shot DecompressHuffman succeeds it returns a byte
count at most destLength and leaves every destination entry at index
destLength or beyond untouched (same length, same contents there), even when
the decoded byte length header of the stream exceeds destLength. -/
theorem DecompressHuffman_bounded (fuel : Nat) (source dest : List Nat)
    (destLength count : Nat) (dest' : List Nat)
    (h : DecompressHuffman fuel source dest destLength = some (count, dest')) :
    count ≤ destLength ∧ dest'.length = dest.length ∧
    ∀ i, destLength ≤ i → dest'.getD i 0 = dest.getD i 0 := by
  have hb := DecompressHuffmanLoop_bounds fuel destLength (DecompressHuffmanStart source)
    dest 0 count dest' h
  exact ⟨by omega, hb.2.1, fun i hi => hb.2.2 i (by omega)⟩

/-- C10 witness: a stream declaring byte length 2 decoded into a destination
of length 1 (inside a buffer of two cells): one byte written, the cell at
index 1 untouched. -/
theorem DecompressHuffman_bounded_witness :
    (DecompressHuffman 8 huffShortSource [9, 9] 1 = some (1, [1, 9]) ∧
      (DecompressHuffmanStart huffShortSource).byteLength = 2) ∧
    (1 ≤ 1 ∧ ([1, 9] : List Nat).length = ([9, 9] : List Nat).length ∧
      ∀ i, 1 ≤ i → ([1, 9] : List Nat).getD i 0 = ([9, 9] : List Nat).getD i 0) :=
  ⟨⟨by decide, by decide⟩,
    DecompressHuffman_bounded 8 huffShortSource [9, 9] 1 1 [1, 9] (by decide)⟩

/-- C2 (code bug): on a concrete LZCL stream whose token-mode header bit is
0, DecompressLZCLStart parses the token codec (here a Fixed codec with 3-bit
symbols whose region holds the token 5) but leaves useTokens at its memset
value 0, so GetLZCLDecodedToken takes the separate-codecs branch: it decodes
the raw token value 5 as the distance via the union alias distanceCodec and
length min_length + 0 = 1 from the never-initialized (zeroed) length codec,
instead of the token split distance = 5 mod 3 = 2, length = 5 / 3 + 1 = 2
that the claim describes. -/
theorem DecompressLZCLStart_useTokens_bug :
    lzclBugState.useTokens = 0 ∧
    lzclBugState.tokenCodec.codecType = 0 ∧
    lzclBugState.tokenCodec.fixedState.bitsPerSymbol = 3 ∧
    lzclBugState.lengthCodec = zeroSubCodec ∧
    lzclBugState.actualMinLength = 1 ∧
    lzclBugState.actualMaxDistance = 2 ∧
    (GetLZCLDecodedToken 8 lzclBugState).map (fun r => (r.1, r.2.1)) = some (5, 1) ∧
    (GetLZCLDecodedToken 8 lzclBugState).map (fun r => (r.1, r.2.1))
      ≠ some (5 % (2 + 1), 5 / (2 + 1) + 1) := by
  refine ⟨by decide, by decide, by decide, by decide, by decide, by decide, by decide, by decide⟩

theorem ReadArithmeticBistream_le_one (s : ArithmeticState) :
    (ReadArithmeticBistream s 1).1 ≤ 1 := by
  rw [ReadArithmeticBistream]
  split_ifs with h
  · show (ReadBitstream s.bitstream 1).1 ≤ 1
    rw [ReadBitstream_one]
    exact bitAt_le_one _ _
  · exact Nat.zero_le 1

theorem E1Step_spec (s : ArithmeticState) (h1 : s.lowValue ≤ s.buffer)
    (h2 : s.buffer ≤ s.highValue) (h3 : s.highValue < range50Percent) :
    (E1Step s).lowValue = 2 * s.lowValue ∧ (E1Step s).highValue = 2 * s.highValue + 1 ∧
    (E1Step s).lowValue ≤ (E1Step s).buffer ∧ (E1Step s).buffer ≤ (E1Step s).highValue := by
  have hb := ReadArithmeticBistream_le_one s
  have hR : range50Percent = 1073741824 := rfl
  have hU : U32 = 4294967296 := rfl
  have hl : (2 * s.lowValue) % U32 = 2 * s.lowValue := Nat.mod_eq_of_lt (by omega)
  have hh : (2 * s.highValue + 1) % U32 = 2 * s.highValue + 1 := Nat.mod_eq_of_lt (by omega)
  have hbuf : (2 * s.buffer + (ReadArithmeticBistream s 1).1) % U32
      = 2 * s.buffer + (ReadArithmeticBistream s 1).1 := Nat.mod_eq_of_lt (by omega)
  simp only [E1Step]
  rw [hl, hh, hbuf]
  omega

theorem E2Step_spec (s : ArithmeticState) (h1 : s.lowValue ≤ s.buffer)
    (h2 : s.buffer ≤ s.highValue) (h3 : range50Percent ≤ s.lowValue)
    (h4 : s.highValue < range100Percent) :
    (E2Step s).lowValue = 2 * (s.lowValue - range50Percent) ∧
    (E2Step s).highValue = 2 * (s.highValue - range50Percent) + 1 ∧
    (E2Step s).lowValue ≤ (E2Step s).buffer ∧ (E2Step s).buffer ≤ (E2Step s).highValue := by
  have hb := ReadArithmeticBistream_le_one s
  have hR : range50Percent = 1073741824 := rfl
  have hR100 : range100Percent = 2147483648 := rfl
  have hU : U32 = 4294967296 := rfl
  have hsl : u32sub s.lowValue range50Percent = s.lowValue - range50Percent :=
    u32sub_eq _ _ h3 (by omega)
  have hsh : u32sub s.highValue range50Percent = s.highValue - range50Percent :=
    u32sub_eq _ _ (by omega) (by omega)
  have hsb : u32sub s.buffer range50Percent = s.buffer - range50Percent :=
    u32sub_eq _ _ (by omega) (by omega)
  simp only [E2Step]
  rw [hsl, hsh, hsb]
  rw [Nat.mod_eq_of_lt (by omega), Nat.mod_eq_of_lt (by omega), Nat.mod_eq_of_lt (by omega)]
  omega

theorem E3Step_spec (s : ArithmeticState) (h1 : s.lowValue ≤ s.buffer)
    (h2 : s.buffer ≤ s.highValue) (h3 : range25Percent ≤ s.lowValue)
    (h4 : s.highValue < range75Percent) :
    (E3Step s).lowValue = 2 * (s.lowValue - range25Percent) ∧
    (E3Step s).highValue = 2 * (s.highValue - range25Percent) + 1 ∧
    (E3Step s).lowValue ≤ (E3Step s).buffer ∧ (E3Step s).buffer ≤ (E3Step s).highValue := by
  have hb := ReadArithmeticBistream_le_one s
  have hR : range25Percent = 536870912 := rfl
  have hR75 : range75Percent = 1610612736 := rfl
  have hU : U32 = 4294967296 := rfl
  have hsl : u32sub s.lowValue range25Percent = s.lowValue - range25Percent :=
    u32sub_eq _ _ h3 (by omega)
  have hsh : u32sub s.highValue range25Percent = s.highValue - range25Percent :=
    u32sub_eq _ _ (by omega) (by omega)
  have hsb : u32sub s.buffer range25Percent = s.buffer - range25Percent :=
    u32sub_eq _ _ (by omega) (by omega)
  simp only [E3Step]
  rw [hsl, hsh, hsb]
  rw [Nat.mod_eq_of_lt (by omega), Nat.mod_eq_of_lt (by omega), Nat.mod_eq_of_lt (by omega)]
  omega

theorem E12Loop_post : ∀ fuel s,
    s.lowValue ≤ s.buffer → s.buffer ≤ s.highValue → s.highValue < range100Percent →
    range100Percent < (s.highValue + 1 - s.lowValue) * 2 ^ fuel →
    ((E12Loop fuel s).lowValue ≤ (E12Loop fuel s).buffer ∧
     (E12Loop fuel s).buffer ≤ (E12Loop fuel s).highValue ∧
     (E12Loop fuel s).highValue < range100Percent ∧
     range50Percent ≤ (E12Loop fuel s).highValue ∧
     (E12Loop fuel s).lowValue < range50Percent) := by
  intro fuel
  induction fuel with
  | zero =>
      intro s h1 h2 h3 h4
      have hR : range100Percent = 2147483648 := rfl
      simp only [pow_zero, mul_one] at h4
      rw [E12Loop]
      omega
  | succ f ih =>
      intro s h1 h2 h3 h4
      rw [E12Loop]
      by_cases hg : s.highValue < range50Percent ∨ range50Percent ≤ s.lowValue
      · rw [if_pos hg]
        by_cases hE1 : s.highValue < range50Percent
        · rw [if_pos hE1]
          obtain ⟨hl', hh', hb1, hb2⟩ := E1Step_spec s h1 h2 hE1
          have hR : range100Percent = 2147483648 := rfl
          have hR50 : range50Percent = 1073741824 := rfl
          refine ih (E1Step s) hb1 hb2 (by omega) ?_
          rw [hh', hl']
          have heq : 2 * s.highValue + 1 + 1 - 2 * s.lowValue
              = 2 * (s.highValue + 1 - s.lowValue) := by omega
          rw [heq]
          have h5 : (s.highValue + 1 - s.lowValue) * 2 ^ (f + 1)
              = 2 * (s.highValue + 1 - s.lowValue) * 2 ^ f := by ring
          rw [h5] at h4
          exact h4
        · rw [if_neg hE1]
          have hE2 : range50Percent ≤ s.lowValue := hg.resolve_left hE1
          rw [if_pos hE2]
          obtain ⟨hl', hh', hb1, hb2⟩ := E2Step_spec s h1 h2 hE2 h3
          have hR : range100Percent = 2147483648 := rfl
          have hR50 : range50Percent = 1073741824 := rfl
          refine ih (E2Step s) hb1 hb2 (by omega) ?_
          rw [hh', hl']
          have heq : 2 * (s.highValue - range50Percent) + 1 + 1
                - 2 * (s.lowValue - range50Percent)
              = 2 * (s.highValue + 1 - s.lowValue) := by omega
          rw [heq]
          have h5 : (s.highValue + 1 - s.lowValue) * 2 ^ (f + 1)
              = 2 * (s.highValue + 1 - s.lowValue) * 2 ^ f := by ring
          rw [h5] at h4
          exact h4
      · rw [if_neg hg]
        push_neg at hg
        exact ⟨h1, h2, h3, hg.1, hg.2⟩

theorem E3Loop_post : ∀ fuel s,
    s.lowValue ≤ s.buffer → s.buffer ≤ s.highValue → s.highValue < range100Percent →
    range50Percent ≤ s.highValue → s.lowValue < range50Percent →
    range100Percent < (s.highValue + 1 - s.lowValue) * 2 ^ fuel →
    ((E3Loop fuel s).lowValue ≤ (E3Loop fuel s).buffer ∧
     (E3Loop fuel s).buffer ≤ (E3Loop fuel s).highValue ∧
     (E3Loop fuel s).highValue < range100Percent ∧
     range50Percent ≤ (E3Loop fuel s).highValue ∧
     (E3Loop fuel s).lowValue < range50Percent ∧
     ((E3Loop fuel s).lowValue < range25Percent ∨
       range75Percent ≤ (E3Loop fuel s).highValue)) := by
  intro fuel
  induction fuel with
  | zero =>
      intro s h1 h2 h3 h4 h5 h6
      have hR : range100Percent = 2147483648 := rfl
      simp only [pow_zero, mul_one] at h6
      rw [E3Loop]
      omega
  | succ f ih =>
      intro s h1 h2 h3 h4 h5 h6
      rw [E3Loop]
      by_cases hg : range25Percent ≤ s.lowValue ∧ s.highValue < range75Percent
      · rw [if_pos hg]
        obtain ⟨hl', hh', hb1, hb2⟩ := E3Step_spec s h1 h2 hg.1 hg.2
        have hR25 : range25Percent = 536870912 := rfl
        have hR50 : range50Percent = 1073741824 := rfl
        have hR75 : range75Percent = 1610612736 := rfl
        have hR100 : range100Percent = 2147483648 := rfl
        refine ih (E3Step s) hb1 hb2 (by omega) (by omega) (by omega) ?_
        rw [hh', hl']
        have heq : 2 * (s.highValue - range25Percent) + 1 + 1
              - 2 * (s.lowValue - range25Percent)
            = 2 * (s.highValue + 1 - s.lowValue) := by omega
        rw [heq]
        have h7 : (s.highValue + 1 - s.lowValue) * 2 ^ (f + 1)
            = 2 * (s.highValue + 1 - s.lowValue) * 2 ^ f := by ring
        rw [h7] at h6
        exact h6
      · rw [if_neg hg]
        push_neg at hg
        have hR25 : range25Percent = 536870912 := rfl
        have hR75 : range75Percent = 1610612736 := rfl
        refine ⟨h1, h2, h3, h4, h5, ?_⟩
        by_cases hl : s.lowValue < range25Percent
        · exact Or.inl hl
        · exact Or.inr (hg (by omega))

theorem LookupLoop_bounds (cum : Nat) : ∀ fuel bs b1 lo hi sym i res,
    LookupLoop cum fuel bs b1 lo hi sym i = some res → lo ≤ cum →
    res.2.1 ≤ cum ∧ cum < res.2.2 := by
  intro fuel
  induction fuel with
  | zero =>
      intro bs b1 lo hi sym i res h
      simp [LookupLoop] at h
  | succ f ih =>
      intro bs b1 lo hi sym i res h hlo
      rw [LookupLoop] at h
      split_ifs at h with hg
      · exact ih _ _ _ _ _ _ _ h hg
      · have hp := Option.some.inj h
        rw [← hp]
        refine ⟨hlo, ?_⟩
        show cum < hi
        omega

theorem Lookup_bounds (fuel : Nat) (s : ArithmeticState) (cum sym lo hi : Nat)
    (h : LookupArithmeticLowMemoryCount fuel s cum = some (sym, lo, hi)) (hpos : 0 < hi) :
    lo ≤ cum ∧ cum < hi := by
  rw [LookupArithmeticLowMemoryCount] at h
  split_ifs at h with hlen
  · have hp := Option.some.inj h
    have : (0 : Nat) = hi := congrArg (fun t => t.2.2) hp
    omega
  · exact LookupLoop_bounds cum fuel _ _ _ _ _ _ (sym, lo, hi) h (Nat.zero_le _)

/-- C6: with the range-coder invariant holding before the call (total
positive and at most 2^29, low at most buffer at most high, low strictly
below high, high below 2^31, range wider than range25Percent) and a
well-formed BASC table (the lookup succeeds with a positive high count at
most total), DecompressArithmeticSymbol succeeds and the E1/E2/E3
renormalization re-establishes low < high, low at most buffer at most high,
and high - low + 1 > range25Percent. -/
theorem DecompressArithmeticSymbol_invariant (fuel : Nat) (s : ArithmeticState)
    (hfuel : 32 ≤ fuel) (htpos : 0 < s.total) (htle : s.total ≤ range25Percent)
    (h1 : s.lowValue ≤ s.buffer) (h2 : s.buffer ≤ s.highValue)
    (h3 : s.lowValue < s.highValue) (h4 : s.highValue < range100Percent)
    (h5 : range25Percent < s.highValue - s.lowValue + 1)
    (sym lo hi : Nat)
    (hlook : LookupArithmeticLowMemoryCount fuel s
        (u32sub s.buffer s.lowValue
          / (((u32sub s.highValue s.lowValue + 1) % U32) / s.total)) = some (sym, lo, hi))
    (hhi : 0 < hi) (hhitot : hi ≤ s.total) :
    ∃ t, DecompressArithmeticSymbol fuel s = some (sym, t) ∧
      t.lowValue < t.highValue ∧ t.lowValue ≤ t.buffer ∧ t.buffer ≤ t.highValue ∧
      range25Percent < t.highValue - t.lowValue + 1 := by
  have hU : U32 = 4294967296 := rfl
  have hC25 : range25Percent = 536870912 := rfl
  have hC50 : range50Percent = 1073741824 := rfl
  have hC75 : range75Percent = 1610612736 := rfl
  have hC100 : range100Percent = 2147483648 := rfl
  have hhU : s.highValue < U32 := by omega
  have hsub1 : u32sub s.highValue s.lowValue = s.highValue - s.lowValue :=
    u32sub_eq _ _ (by omega) hhU
  have hr1 : (u32sub s.highValue s.lowValue + 1) % U32 = s.highValue - s.lowValue + 1 := by
    rw [hsub1]
    exact Nat.mod_eq_of_lt (by omega)
  have hsubb : u32sub s.buffer s.lowValue = s.buffer - s.lowValue := u32sub_eq _ _ h1 (by omega)
  have hbounds := Lookup_bounds fuel s _ sym lo hi hlook hhi
  set step := ((u32sub s.highValue s.lowValue + 1) % U32) / s.total with hstepdef
  set cum := u32sub s.buffer s.lowValue / step with hcumdef
  have hstep_eq : step = (s.highValue - s.lowValue + 1) / s.total := by rw [hstepdef, hr1]
  have hts : s.total ≤ s.highValue - s.lowValue + 1 := by omega
  have hstep1 : 1 ≤ step := by
    rw [hstep_eq]
    exact (Nat.one_le_div_iff htpos).mpr hts
  have hstept : step * s.total ≤ s.highValue - s.lowValue + 1 := by
    rw [hstep_eq]
    exact Nat.div_mul_le_self _ _
  have hlo_cum : step * lo ≤ s.buffer - s.lowValue := by
    calc step * lo ≤ step * cum := Nat.mul_le_mul_left _ hbounds.1
      _ = cum * step := mul_comm _ _
      _ ≤ s.buffer - s.lowValue := by
          rw [hcumdef, hsubb]
          exact Nat.div_mul_le_self _ _
  have hcum_hi : s.buffer - s.lowValue < step * hi := by
    have hlt := hbounds.2
    rw [hcumdef, hsubb] at hlt
    have hlt2 : s.buffer - s.lowValue < hi * step := (Nat.div_lt_iff_lt_mul hstep1).mp hlt
    rw [mul_comm] at hlt2
    exact hlt2
  have hhi_le : step * hi ≤ s.highValue - s.lowValue + 1 :=
    le_trans (Nat.mul_le_mul_left _ hhitot) hstept
  have hstep_hi1 : 1 ≤ step * hi := Nat.one_le_iff_ne_zero.mpr (by positivity)
  have hgap : step * lo + step ≤ step * hi := by
    have hlohi : lo + 1 ≤ hi := by omega
    calc step * lo + step = step * (lo + 1) := by ring
      _ ≤ step * hi := Nat.mul_le_mul_left _ hlohi
  have hmod1 : (s.lowValue + step * hi) % U32 = s.lowValue + step * hi :=
    Nat.mod_eq_of_lt (by omega)
  have hmod2 : (s.lowValue + step * lo) % U32 = s.lowValue + step * lo :=
    Nat.mod_eq_of_lt (by omega)
  have hsub2 : u32sub ((s.lowValue + step * hi) % U32) 1 = s.lowValue + step * hi - 1 := by
    rw [hmod1]
    exact u32sub_eq _ _ (by omega) (by omega)
  simp only [DecompressArithmeticSymbol]
  rw [← hstepdef, ← hcumdef, hlook]
  refine ⟨_, rfl, ?_⟩
  have hpow : (4294967296 : Nat) ≤ 2 ^ fuel := by
    calc (4294967296 : Nat) = 2 ^ 32 := by norm_num
      _ ≤ 2 ^ fuel := Nat.pow_le_pow_right (by norm_num) hfuel
  set s1 : ArithmeticState :=
    {s with highValue := u32sub ((s.lowValue + step * hi) % U32) 1,
            lowValue := (s.lowValue + step * lo) % U32} with hs1def
  have hs1l : s1.lowValue = s.lowValue + step * lo := by rw [hs1def]; exact hmod2
  have hs1h : s1.highValue = s.lowValue + step * hi - 1 := by rw [hs1def]; exact hsub2
  have hs1b : s1.buffer = s.buffer := rfl
  have p1 : s1.lowValue ≤ s1.buffer := by rw [hs1l, hs1b]; omega
  have p2 : s1.buffer ≤ s1.highValue := by rw [hs1b, hs1h]; omega
  have p3 : s1.highValue < range100Percent := by rw [hs1h]; omega
  have p4 : range100Percent < (s1.highValue + 1 - s1.lowValue) * 2 ^ fuel := by
    rw [hs1h, hs1l]
    have hge1 : 1 ≤ s.lowValue + step * hi - 1 + 1 - (s.lowValue + step * lo) := by omega
    calc range100Percent < 4294967296 := by omega
      _ ≤ 2 ^ fuel := hpow
      _ = 1 * 2 ^ fuel := (one_mul _).symm
      _ ≤ (s.lowValue + step * hi - 1 + 1 - (s.lowValue + step * lo)) * 2 ^ fuel :=
          Nat.mul_le_mul_right _ hge1
  have post12 := E12Loop_post fuel s1 p1 p2 p3 p4
  have q4 : range100Percent
      < ((E12Loop fuel s1).highValue + 1 - (E12Loop fuel s1).lowValue) * 2 ^ fuel := by
    have hge2 : 2 ≤ (E12Loop fuel s1).highValue + 1 - (E12Loop fuel s1).lowValue := by
      have := post12.2.2.2
      omega
    calc range100Percent < 2 * 4294967296 := by omega
      _ ≤ 2 * 2 ^ fuel := by omega
      _ ≤ ((E12Loop fuel s1).highValue + 1 - (E12Loop fuel s1).lowValue) * 2 ^ fuel :=
          Nat.mul_le_mul_right _ hge2
  have post3 := E3Loop_post fuel (E12Loop fuel s1) post12.1 post12.2.1 post12.2.2.1
    post12.2.2.2.1 post12.2.2.2.2 q4
  refine ⟨?_, post3.1, post3.2.1, ?_⟩
  · have := post3.2.2.2.1
    have := post3.2.2.2.2.1
    omega
  · rcases post3.2.2.2.2.2 with hcase | hcase
    · have := post3.2.2.2.1
      omega
    · have := post3.2.2.2.2.1
      omega

/-- C6 witness: the concrete state arithInvState (total 1, full range, BASC
table with the single count 1) satisfies every hypothesis, and the symbol
decode returns symbol 5 with the invariant re-established. -/
theorem DecompressArithmeticSymbol_invariant_witness :
    ((32 : Nat) ≤ 64 ∧ 0 < arithInvState.total ∧ arithInvState.total ≤ range25Percent ∧
     arithInvState.lowValue ≤ arithInvState.buffer ∧
     arithInvState.buffer ≤ arithInvState.highValue ∧
     arithInvState.lowValue < arithInvState.highValue ∧
     arithInvState.highValue < range100Percent ∧
     range25Percent < arithInvState.highValue - arithInvState.lowValue + 1 ∧
     LookupArithmeticLowMemoryCount 64 arithInvState
        (u32sub arithInvState.buffer arithInvState.lowValue
          / (((u32sub arithInvState.highValue arithInvState.lowValue + 1) % U32)
              / arithInvState.total)) = some (5, 0, 1)) ∧
    ∃ t, DecompressArithmeticSymbol 64 arithInvState = some (5, t) ∧
      t.lowValue < t.highValue ∧ t.lowValue ≤ t.buffer ∧ t.buffer ≤ t.highValue ∧
      range25Percent < t.highValue - t.lowValue + 1 :=
  ⟨⟨by norm_num, by decide, by decide, by decide, by decide, by decide, by decide, by decide,
      by decide⟩,
    DecompressArithmeticSymbol_invariant 64 arithInvState (by norm_num) (by decide) (by decide)
      (by decide) (by decide) (by decide) (by decide) (by decide) 5 0 1 (by decide) (by decide)
      (by decide)⟩

end CompressionTools
